import Mathlib

/-!
Verification development for the gh-actlock workflow pinning tool.

The Go sources are shallowly embedded: Go strings become `List Char`
(byte-level slicing in the source only ever happens at ASCII boundaries, so
the rune/byte distinction is immaterial for the embedded fragments), Go maps
`map[int]string` become association lists with overwrite-on-set semantics,
fallible calls return `Except`/`Option`, and the GitHub remote is a record of
response functions (one per API endpoint used), each returning a result that
distinguishes success, HTTP 404, and any other error, mirroring how the
source's `isNotFoundError` partitions errors.
-/

deriving instance DecidableEq for Except

namespace GhActlock

/-- Go strings, embedded as lists of characters. -/
abbrev Str := List Char

/-- Convert a Lean string literal to the embedded representation. -/
def gs (s : String) : Str := s.toList

/-- Go `strings.HasPrefix(s, pre)`. -/
def goStartsWith (s pre : Str) : Bool := pre.isPrefixOf s

/-- Go `strings.Contains(s, sub)`: some suffix of `s` starts with `sub`. -/
def goContains : Str → Str → Bool
  | [], sub => sub.isEmpty
  | s@(_ :: rest), sub => sub.isPrefixOf s || goContains rest sub

/-- Go `strings.SplitN(s, sep, 2)` for a one-character separator: the part
before the first occurrence of `sep`, and — when `sep` occurs — the part
after it.  Go returns a one-element slice when `sep` is absent; that case is
`none` here. -/
def splitFirst (sep : Char) : Str → Str × Option Str
  | [] => ([], none)
  | c :: rest =>
    if c = sep then ([], some rest)
    else
      let r := splitFirst sep rest
      (c :: r.1, r.2)

/-- Embeds `isHexDigit` from githubclient/client.go: 0-9, a-f, A-F. -/
def isHexDigit (c : Char) : Bool :=
  (decide ('0' ≤ c) && decide (c ≤ '9')) ||
  (decide ('a' ≤ c) && decide (c ≤ 'f')) ||
  (decide ('A' ≤ c) && decide (c ≤ 'F'))

/-- Embeds `IsHexString` from githubclient/client.go: every character is a hex
digit.  (The Go original iterates bytes; any non-ASCII byte fails the digit
test there exactly as any non-ASCII character fails it here.) -/
def IsHexString (s : Str) : Bool := s.all isHexDigit

/-- The constant `SHALength` from githubclient/client.go. -/
def SHALength : Nat := 40

/-- Go `unicode.IsSpace` as used by `strings.TrimSpace`. -/
def goIsSpace (c : Char) : Bool :=
  c = ' ' || c = '\t' || c = '\n' || c = Char.ofNat 11 || c = Char.ofNat 12 ||
  c = '\r' || c = Char.ofNat 0x85 || c = Char.ofNat 0xA0 ||
  c = Char.ofNat 0x1680 ||
  (decide (Char.ofNat 0x2000 ≤ c) && decide (c ≤ Char.ofNat 0x200A)) ||
  c = Char.ofNat 0x2028 || c = Char.ofNat 0x2029 || c = Char.ofNat 0x202F ||
  c = Char.ofNat 0x205F || c = Char.ofNat 0x3000

/-- Go `strings.TrimSpace(s)`: drop Unicode whitespace from both ends. -/
def trimSpace (s : Str) : Str :=
  ((s.dropWhile goIsSpace).reverse.dropWhile goIsSpace).reverse

/-- The leading indentation taken by applyUpdatesToLines:
`line[:len(line)-len(strings.TrimLeft(line, " \t"))]`, i.e. the maximal
leading run of spaces and tabs. -/
def indentOf (line : Str) : Str :=
  line.takeWhile (fun c => c = ' ' || c = '\t')

/-! ### parser: ParseActionReference -/

/-- The structure `parser.WorkflowAction`. -/
structure WorkflowAction where
  name : Str
  repo : Str
  ref : Str
  type : Str
deriving Repr, DecidableEq

/-- The distinct error returns of `ParseActionReference`, in source order. -/
inductive ParseErr where
  | emptyReference
  | missingRef
  | invalidFormat
  | incomplete
deriving Repr, DecidableEq

/-- The function `parser.ParseActionReference`, embedded clause for clause from the Go
source.  The Go version also carries a partially filled action value next to
each error; only the error identity matters to any caller, so errors are the
`ParseErr` tags here. -/
def ParseActionReference (uses : Str) : Except ParseErr WorkflowAction :=
  if uses = [] then .error .emptyReference
  else if goStartsWith uses (gs "./") || goStartsWith uses (gs "../") then
    -- local path action: the path is stored in the Repo field
    .ok { name := [], repo := uses, ref := [], type := gs "local" }
  else if goStartsWith uses (gs "docker://") then
    let fullImage := uses.drop (gs "docker://").length
    match splitFirst ':' fullImage with
    | (img, some tag) => .ok { name := [], repo := img, ref := tag, type := gs "docker" }
    | (img, none) => .ok { name := [], repo := img, ref := gs "latest", type := gs "docker" }
  else
    match splitFirst '@' uses with
    | (_, none) => .error .missingRef
    | (repoPath, some refPart) =>
      match splitFirst '/' repoPath with
      | (_, none) => .error .invalidFormat
      | (owner, some repoRest) =>
        if owner = [] ∨ repoRest = [] ∨ refPart = [] then .error .incomplete
        else .ok { name := owner, repo := repoRest, ref := refPart, type := gs "github" }

/-! ### githubclient: the remote model and the reference resolver -/

/-- The object a Git reference (or an annotated tag object) points at:
its `Type` and `SHA` fields, both taken to be present (the source separately
guards the case where the whole object or its SHA is nil; that case is the
`none` of the `Option GitObject` the remote model returns). -/
structure GitObject where
  type : Str
  sha : Str
deriving Repr, DecidableEq

/-- The three-way outcome of one GitHub API call, as the source
distinguishes them: success, an HTTP 404 `ErrorResponse` (the
`isNotFoundError` case), and every other error. -/
inductive ApiResult (α : Type) where
  | ok (val : α)
  | notFound
  | otherErr
deriving Repr, DecidableEq

/-- One fixed remote state: the response each endpoint used by the tool
would give.  `getRef`/`getTag` return `ok none` to model a 200 response
whose object or SHA pointer is nil (the source turns that into an error). -/
structure GitHubState where
  /-- `client.Git.GetRef(owner, repo, refPath)` -/
  getRef : Str → Str → Str → ApiResult (Option GitObject)
  /-- `client.Git.GetTag(owner, repo, tagObjectSHA)` -/
  getTag : Str → Str → Str → ApiResult (Option GitObject)
  /-- `client.Git.GetCommit(owner, repo, sha)`; only its error status is used -/
  getCommit : Str → Str → Str → ApiResult Unit
  /-- `client.Repositories.Get(owner, repo)`, restricted to the only field
  read from it: the nilable `DefaultBranch` pointer -/
  repoGet : Str → Str → ApiResult (Option Str)
  /-- `client.Repositories.GetLatestRelease(owner, repo)`: `ok none` is a
  nil release, `ok (some none)` a release with nil `TagName` -/
  getLatestRelease : Str → Str → ApiResult (Option (Option Str))
  /-- `client.Repositories.ListTags(owner, repo, PerPage 10)`: each entry is
  the nilable `Name` and nilable `Commit.SHA` of one tag -/
  listTags : Str → Str → ApiResult (List (Option Str × Option Str))

/-- Outcome of `verifyCommitSHA` (sha, isCommit, err collapsed to the three
cases the caller distinguishes). -/
inductive VerifyOutcome where
  | isCommit (sha : Str)
  | notCommit
  | failed
deriving Repr, DecidableEq

/-- Outcome of `resolveTagToSHA` / `resolveBranchToSHA`: the Go quadruple
(sha, found, resp, err) collapsed to the three cases the caller
distinguishes (err ≠ nil; err = nil ∧ found; err = nil ∧ ¬found). -/
inductive LookupOutcome where
  | found (sha : Str)
  | notFound
  | failed
deriving Repr, DecidableEq

/-- Embeds `verifyCommitSHA` from the githubclient resolver: a ref is only checked
against the commit endpoint when it is 40 characters of hex; a 404 there
means "not a commit", any other error is reported to the caller. -/
def verifyCommitSHA (st : GitHubState) (owner repo ref : Str) : VerifyOutcome :=
  if ¬(ref.length = SHALength ∧ IsHexString ref = true) then .notCommit
  else
    match st.getCommit owner repo ref with
    | .ok _ => .isCommit ref
    | .notFound => .notCommit
    | .otherErr => .failed

/-- Embeds `resolveTagToSHA` from the githubclient resolver.  A lightweight tag
(ref object of type "commit") answers directly; an annotated tag (type
"tag") requires fetching the tag object, which must name a commit; any other
shape, and any failure of the second fetch (404 included), is a hard error
for this step. -/
def resolveTagToSHA (st : GitHubState) (owner repo ref : Str) : LookupOutcome :=
  let refPath := gs "refs/tags/" ++ ref
  match st.getRef owner repo refPath with
  | .notFound => .notFound
  | .otherErr => .failed
  | .ok none => .failed
  | .ok (some obj) =>
    if obj.type = gs "commit" then .found obj.sha
    else if obj.type = gs "tag" then
      match st.getTag owner repo obj.sha with
      | .notFound => .failed
      | .otherErr => .failed
      | .ok none => .failed
      | .ok (some tagObj) =>
        if tagObj.type = gs "commit" then .found tagObj.sha
        else .failed
    else .failed

/-- Embeds `resolveBranchToSHA` from the githubclient resolver: the branch ref
object must name a commit. -/
def resolveBranchToSHA (st : GitHubState) (owner repo ref : Str) : LookupOutcome :=
  let refPath := gs "refs/heads/" ++ ref
  match st.getRef owner repo refPath with
  | .notFound => .notFound
  | .otherErr => .failed
  | .ok none => .failed
  | .ok (some obj) =>
    if obj.type = gs "commit" then .found obj.sha
    else .failed

/-- The distinct error returns of `ResolveRefToSHA`. -/
inductive ResolveErr where
  | invalidInput
  | refNotFound
deriving Repr, DecidableEq

/-- Embeds `ResolveRefToSHA`: ordered disambiguation commit → tag → branch, where a
failed or negative step falls through to the next and only exhaustion of all
three steps is an error.  (The nil-client fast failure concerns the Go
client handle, which the remote-state record replaces.) -/
def ResolveRefToSHA (st : GitHubState) (owner repo ref : Str) :
    Except ResolveErr Str :=
  if owner = [] ∨ repo = [] ∨ ref = [] then .error .invalidInput
  else
    match verifyCommitSHA st owner repo ref with
    | .isCommit sha => .ok sha
    | _ =>
      match resolveTagToSHA st owner repo ref with
      | .found sha => .ok sha
      | _ =>
        match resolveBranchToSHA st owner repo ref with
        | .found sha => .ok sha
        | _ => .error .refNotFound

/-- Embeds `GetLatestActionRef`: prefer the latest release's tag name resolved
through `ResolveRefToSHA`; on any shortfall fall back to the newest listed
tag, which must carry both a name and a commit SHA. -/
def GetLatestActionRef (st : GitHubState) (owner repo : Str) :
    Except Unit (Str × Str) :=
  let fallback : Except Unit (Str × Str) :=
    match st.listTags owner repo with
    | .ok [] => .error ()
    | .ok (t0 :: _) =>
      match t0 with
      | (some n, some sha) => .ok (n, sha)
      | _ => .error ()
    | _ => .error ()
  match st.getLatestRelease owner repo with
  | .ok (some (some tagName)) =>
    match ResolveRefToSHA st owner repo tagName with
    | .ok sha => .ok (tagName, sha)
    | .error _ => fallback
  | _ => fallback

/-! ### githubclient part_005: isNotFoundError

The current revision of `isNotFoundError` takes the raw Go error value and
the (nilable) `*github.Response`.  Its evaluation is partial: when the error
is a non-nil `*github.ErrorResponse` it reads `resp.StatusCode` without any
nil check on `resp` (it checks `errResp != nil` instead, although its own
comment says the check exists to guard the response pointer).  The embedding
returns `none` exactly where the Go code dereferences nil and panics. -/

/-- A Go `error` interface value that is not nil: a typed-nil
`*github.ErrorResponse` (the type assertion still succeeds on it), a real
`*github.ErrorResponse`, or any other error. -/
inductive GoError where
  | errorResponseNil
  | errorResponse
  | otherError
deriving Repr, DecidableEq

/-- Embeds `isNotFoundError(err, resp)` from src/unnamed/part_005.  `err = none` is
a nil error interface (the type assertion fails), `respStatus = none` a nil
response pointer.  Result `none` models the nil-pointer panic on
`resp.StatusCode`; `&&` short-circuits, so the typed-nil error case returns
false without touching `resp`. -/
def isNotFoundError (err : Option GoError) (respStatus : Option Nat) :
    Option Bool :=
  match err with
  | some .errorResponse =>
    match respStatus with
    | none => none
    | some code => some (decide (code = 404))
  | some .errorResponseNil => some false
  | some .otherError => some false
  | none => some false

/-! ### cmd/root.go: the document walker -/

/-- The Go `map[int]string` of pending edits, as an association list whose
`mapSet` overwrites an existing key in place. -/
def mapGet (m : List (Nat × Str)) (k : Nat) : Option Str :=
  match m with
  | [] => none
  | (k2, v) :: rest => if k = k2 then some v else mapGet rest k

/-- Go map assignment `m[k] = v`: overwrite the entry for `k`, or append. -/
def mapSet (m : List (Nat × Str)) (k : Nat) (v : Str) : List (Nat × Str) :=
  match m with
  | [] => [(k, v)]
  | (k2, v2) :: rest => if k = k2 then (k2, v) :: rest else (k2, v2) :: mapSet rest k v

/-- The mutable state the walk threads through: the `updates` map and the
`updatesMade` counter. -/
structure WalkState where
  updates : List (Nat × Str)
  count : Nat
deriving Repr, DecidableEq

/-- Embeds `resolveWorkflowRef` from cmd/root.go: a nonempty ref is used as given;
an empty ref is replaced by the repository's default branch, which the
repository-info lookup must deliver non-nil and nonempty, and which then
also becomes the ref recorded for the trailing comment. -/
def resolveWorkflowRef (st : GitHubState) (owner repoNameForAPI currentRef : Str) :
    Except Unit (Str × Str) :=
  if currentRef = [] then
    match st.repoGet owner repoNameForAPI with
    | .ok (some b) => if b = [] then .error () else .ok (b, b)
    | .ok none => .error ()
    | .notFound => .error ()
    | .otherErr => .error ()
  else .ok (currentRef, currentRef)

/-- Embeds `handleWorkflowReference` from cmd/root.go.  `upd` is the global
`Update` flag passed explicitly; every error path of the source logs and
returns nil, so here every skip returns the state unchanged. -/
def handleWorkflowReference (st : GitHubState) (upd : Bool)
    (action : WorkflowAction) (lineNum : Nat) (s : WalkState) (isSHA : Bool) :
    WalkState :=
  let owner := action.name
  let repoField := action.repo
  let ref := action.ref
  let repoNameForAPI := (splitFirst '/' repoField).1
  if repoNameForAPI = [] then s
  else
    let fullPathForUses := owner ++ gs "/" ++ repoField
    if upd then
      match GetLatestActionRef st owner repoNameForAPI with
      | .error _ => s
      | .ok (latestRef, commitSHA) =>
        if commitSHA = [] ∨ latestRef = [] then s
        else
          let newUsesValue :=
            fullPathForUses ++ gs "@" ++ commitSHA ++ gs " #" ++ latestRef
          if isSHA ∧ ref = commitSHA then s
          else ⟨mapSet s.updates lineNum newUsesValue, s.count + 1⟩
    else
      if isSHA then s
      else
        match resolveWorkflowRef st owner repoNameForAPI ref with
        | .error _ => s
        | .ok (branchName, originalRefForComment) =>
          match ResolveRefToSHA st owner repoNameForAPI branchName with
          | .error _ => s
          | .ok commitSHA =>
            if commitSHA = [] then s
            else
              let newUsesValue :=
                fullPathForUses ++ gs "@" ++ commitSHA ++ gs " #" ++ originalRefForComment
              ⟨mapSet s.updates lineNum newUsesValue, s.count + 1⟩

/-- Embeds `handleActionReference` from cmd/root.go. -/
def handleActionReference (st : GitHubState) (upd : Bool)
    (action : WorkflowAction) (lineNum : Nat) (s : WalkState) (isSHA : Bool) :
    WalkState :=
  let owner := action.name
  let repoName := action.repo
  let ref := action.ref
  let repoNameForAPI := (splitFirst '/' repoName).1
  if repoNameForAPI = [] then s
  else
    let fullPathForUses := owner ++ gs "/" ++ repoName
    if upd then
      match GetLatestActionRef st owner repoNameForAPI with
      | .error _ => s
      | .ok (latestRef, commitSHA) =>
        if commitSHA = [] ∨ latestRef = [] then s
        else
          let newUsesValue :=
            fullPathForUses ++ gs "@" ++ commitSHA ++ gs " #" ++ latestRef
          if isSHA ∧ ref = commitSHA then s
          else ⟨mapSet s.updates lineNum newUsesValue, s.count + 1⟩
    else
      if isSHA then s
      else
        match ResolveRefToSHA st owner repoNameForAPI ref with
        | .error _ => s
        | .ok commitSHA =>
          if commitSHA = [] then s
          else
            let newUsesValue :=
              fullPathForUses ++ gs "@" ++ commitSHA ++ gs " #" ++ ref
            ⟨mapSet s.updates lineNum newUsesValue, s.count + 1⟩

/-- Embeds `handleUsesValue` from cmd/root.go: skip a line that already has a
pending edit, skip on parse failure, skip non-github or incomplete
references, then branch on workflow-vs-action and the 40-hex check.  Every
return of the source is `nil`, so the embedding is total into the state. -/
def handleUsesValue (st : GitHubState) (upd : Bool) (usesValue : Str)
    (lineNum : Nat) (s : WalkState) : WalkState :=
  match mapGet s.updates lineNum with
  | some _ => s
  | none =>
    match ParseActionReference usesValue with
    | .error _ => s
    | .ok action =>
      if ¬(action.type = gs "github") ∨ action.name = [] ∨ action.repo = [] then s
      else
        let isSHA := action.ref.length = SHALength ∧ IsHexString action.ref = true
        let isWorkflow :=
          goContains action.repo (gs ".yml") || goContains action.repo (gs ".yaml")
        if isWorkflow then
          handleWorkflowReference st upd action lineNum s (decide isSHA)
        else
          handleActionReference st upd action lineNum s (decide isSHA)

/-- A node of the generic YAML syntax tree, with the fields the walker
reads: kind, scalar value, scalar line, children.  Mapping content is the
flat `[key1, value1, key2, value2, ...]` list of the Go library. -/
inductive YamlNode where
  | scalar (value : Str) (line : Nat)
  | mapping (content : List YamlNode)
  | sequence (content : List YamlNode)
  | document (content : List YamlNode)
  | aliasNode

/-- The check `node.Kind == yaml.ScalarNode`. -/
def nodeIsScalar : YamlNode → Bool
  | .scalar _ _ => true
  | _ => false

/-- The field `node.Value` (empty for non-scalar nodes, which never carry one). -/
def scalarValue : YamlNode → Str
  | .scalar v _ => v
  | _ => []

/-- The field `node.Line` (zero for non-scalar nodes; the walker only reads it from
scalars). -/
def scalarLine : YamlNode → Nat
  | .scalar _ l => l
  | _ => 0

/-- The guard of the mapping loop:
`keyNode.Kind == ScalarNode && keyNode.Value == "uses" && valueNode.Kind == ScalarNode`. -/
def usesPairCond (keyNode valueNode : YamlNode) : Bool :=
  nodeIsScalar keyNode && decide (scalarValue keyNode = gs "uses") &&
    nodeIsScalar valueNode

mutual

/-- Embeds `findUpdatesInNodes` from cmd/root.go.  `handleUsesValue` never returns
a non-nil error in the current source, so the error plumbing of the Go
version is vacuous and the walk is a total state transformer. -/
def findUpdatesInNodes (st : GitHubState) (upd : Bool) :
    YamlNode → WalkState → WalkState
  | .document content, s => walkNodeList st upd content s
  | .mapping content, s => walkMappingPairs st upd content s
  | .sequence content, s => walkNodeList st upd content s
  | .scalar _ _, s => s
  | .aliasNode, s => s

/-- The document/sequence loop: fold the walk over the children in order. -/
def walkNodeList (st : GitHubState) (upd : Bool) :
    List YamlNode → WalkState → WalkState
  | [], s => s
  | n :: rest, s => walkNodeList st upd rest (findUpdatesInNodes st upd n s)

/-- The mapping loop over `[key, value, ...]` pairs: a scalar key named
`uses` with a scalar value goes to `handleUsesValue`; any other value node
is walked recursively (recursing into a scalar value is the identity, as the
scalar case of the switch falls through).  A trailing odd element cannot
occur in a tree produced by the YAML library (the Go loop would index out of
range); it contributes nothing here. -/
def walkMappingPairs (st : GitHubState) (upd : Bool) :
    List YamlNode → WalkState → WalkState
  | [], s => s
  | [_], s => s
  | keyNode :: valueNode :: rest, s =>
    let s2 :=
      if usesPairCond keyNode valueNode then
        handleUsesValue st upd (scalarValue valueNode) (scalarLine valueNode) s
      else findUpdatesInNodes st upd valueNode s
    walkMappingPairs st upd rest s2

end

mutual

/-- The `uses:` occurrences (scalar value, line) the walk feeds to
`handleUsesValue`, in traversal order. -/
def usesOccurrences : YamlNode → List (Str × Nat)
  | .document content => usesOccurrencesList content
  | .mapping content => usesOccurrencesPairs content
  | .sequence content => usesOccurrencesList content
  | .scalar _ _ => []
  | .aliasNode => []

/-- Occurrences under a document/sequence content list. -/
def usesOccurrencesList : List YamlNode → List (Str × Nat)
  | [] => []
  | n :: rest => usesOccurrences n ++ usesOccurrencesList rest

/-- Occurrences under a mapping content list of key/value pairs. -/
def usesOccurrencesPairs : List YamlNode → List (Str × Nat)
  | [] => []
  | [_] => []
  | keyNode :: valueNode :: rest =>
    (if usesPairCond keyNode valueNode then
      [(scalarValue valueNode, scalarLine valueNode)]
     else usesOccurrences valueNode) ++ usesOccurrencesPairs rest

end

/-! ### cmd/root.go: the line-precise rewriter -/

/-- Go `strings.Split(s, "\n")`: never empty; a trailing newline yields a final
empty segment. -/
def splitNL : Str → List Str
  | [] => [[]]
  | c :: rest =>
    if c = '\n' then [] :: splitNL rest
    else
      match splitNL rest with
      | [] => [[c]]
      | l :: ls => (c :: l) :: ls

/-- The output assembly of `applyUpdatesToLines`: each line followed by a
newline except the last split segment. -/
def joinNL : List Str → Str
  | [] => []
  | [l] => l
  | l :: rest => l ++ '\n' :: joinNL rest

/-- The body of the per-line branch of `applyUpdatesToLines` for a line that
has a pending edit: if the whitespace-trimmed line starts with `uses:` or
`- uses:`, rebuild it from the original indentation, the dash marker when
the trimmed line had one, `uses: `, and the replacement; otherwise keep the
original line (the source also logs a warning there). -/
def processEditedLine (line newUsesValue : Str) : Str :=
  let trimmedLine := trimSpace line
  if goStartsWith trimmedLine (gs "uses:") || goStartsWith trimmedLine (gs "- uses:") then
    let indentation := indentOf line
    if goStartsWith trimmedLine (gs "- uses:") then
      indentation ++ gs "- uses: " ++ newUsesValue
    else
      indentation ++ gs "uses: " ++ newUsesValue
  else line

/-- The loop of `applyUpdatesToLines` over the split lines, carrying the
0-based index and looking edits up at the 1-based line number. -/
def applyLoop (updates : List (Nat × Str)) : List Str → Nat → List Str
  | [], _ => []
  | line :: rest, i =>
    (match mapGet updates (i + 1) with
     | some v => processEditedLine line v
     | none => line) :: applyLoop updates rest (i + 1)

/-- Embeds `applyUpdatesToLines` from cmd/root.go (its error return is always
nil): split on newlines, rewrite flagged lines, rejoin with a newline after
every segment but the last. -/
def applyUpdatesToLines (originalContent : Str) (updates : List (Nat × Str)) : Str :=
  joinNL (applyLoop updates (splitNL originalContent) 0)

/-- The in-memory core of `UpdateWorkflowActionSHAs`: walk the first content
node of the parsed root (none means no walk), then apply the edits to the
text only when the counter is positive; the returned count is the walk's
counter either way. -/
def UpdateWorkflowModel (st : GitHubState) (upd : Bool)
    (rootContent : List YamlNode) (content : Str) : Nat × Str :=
  let s : WalkState :=
    match rootContent with
    | [] => ⟨[], 0⟩
    | r0 :: _ => findUpdatesInNodes st upd r0 ⟨[], 0⟩
  if s.count > 0 then (s.count, applyUpdatesToLines content s.updates)
  else (s.count, content)

/-! ### Derived predicates and concrete instances -/

/-- A `uses:` value counts as already pinned for the idempotence claim when
it is either not retained by the walk (parse failure, non-github type, or
empty owner/repo) or its ref is exactly 40 hexadecimal characters. -/
def pinnedOccB (vv : Str) : Bool :=
  match ParseActionReference vv with
  | .error _ => true
  | .ok a =>
    if a.type = gs "github" ∧ ¬(a.name = []) ∧ ¬(a.repo = []) then
      decide (a.ref.length = SHALength) && IsHexString a.ref
    else true

/-- A remote that answers 404 to everything. -/
def noRemote : GitHubState where
  getRef _ _ _ := ApiResult.notFound
  getTag _ _ _ := ApiResult.notFound
  getCommit _ _ _ := ApiResult.notFound
  repoGet _ _ := ApiResult.notFound
  getLatestRelease _ _ := ApiResult.notFound
  listTags _ _ := ApiResult.notFound

/-- A remote in which `actions/checkout` has a lightweight tag `v4` naming
the commit of the spec's end-to-end pin scenario. -/
def pinScenarioState : GitHubState where
  getRef owner repo refPath :=
    if owner = gs "actions" ∧ repo = gs "checkout" ∧ refPath = gs "refs/tags/v4" then
      ApiResult.ok (some ⟨gs "commit", gs "11bd71901bbe5b1630ceea73d27597364c9af683"⟩)
    else ApiResult.notFound
  getTag _ _ _ := ApiResult.notFound
  getCommit _ _ _ := ApiResult.notFound
  repoGet _ _ := ApiResult.notFound
  getLatestRelease _ _ := ApiResult.notFound
  listTags _ _ := ApiResult.notFound

/-- A remote holding the annotated tag `v2.0.0` of the spec's end-to-end
scenario: the tag ref names a tag object, which names a commit. -/
def annotatedTagState : GitHubState where
  getRef owner repo refPath :=
    if owner = gs "o" ∧ repo = gs "r" ∧ refPath = gs "refs/tags/v2.0.0" then
      ApiResult.ok (some ⟨gs "tag", gs "fffver20tagobject0000000000000000000000f"⟩)
    else ApiResult.notFound
  getTag owner repo sha :=
    if owner = gs "o" ∧ repo = gs "r" ∧
        sha = gs "fffver20tagobject0000000000000000000000f" then
      ApiResult.ok (some ⟨gs "commit", gs "abc1234500000000000000000000000000000abc"⟩)
    else ApiResult.notFound
  getCommit _ _ _ := ApiResult.notFound
  repoGet _ _ := ApiResult.notFound
  getLatestRelease _ _ := ApiResult.notFound
  listTags _ _ := ApiResult.notFound

/-- A remote whose repository `o/r` has default branch `main` at a known
head commit, for a reusable workflow referenced with an empty ref. -/
def defaultBranchState : GitHubState where
  getRef owner repo refPath :=
    if owner = gs "o" ∧ repo = gs "r" ∧ refPath = gs "refs/heads/main" then
      ApiResult.ok (some ⟨gs "commit", gs "77da1f735f5f18ecf049b40ab75503b119175000"⟩)
    else ApiResult.notFound
  getTag _ _ _ := ApiResult.notFound
  getCommit _ _ _ := ApiResult.notFound
  repoGet owner repo :=
    if owner = gs "o" ∧ repo = gs "r" then ApiResult.ok (some (gs "main"))
    else ApiResult.notFound
  getLatestRelease _ _ := ApiResult.notFound
  listTags _ _ := ApiResult.notFound

/-- A document whose one remote action reference is already pinned to a
40-hex SHA and whose other `uses:` is a skipped local path. -/
def pinnedDoc : YamlNode :=
  .document [.mapping [
    .scalar (gs "jobs") 1, .mapping [
      .scalar (gs "build") 2, .mapping [
        .scalar (gs "steps") 3, .sequence [
          .mapping [.scalar (gs "uses") 4,
            .scalar (gs "actions/checkout@11bd71901bbe5b1630ceea73d27597364c9af683") 4],
          .mapping [.scalar (gs "name") 5, .scalar (gs "x") 5,
            .scalar (gs "uses") 6, .scalar (gs "./local/action") 6]]]]]]

/-! ## Helper lemmas -/

/-- Go `strings.Split(s, "\n")` never returns an empty slice. -/
theorem splitNL_ne_nil (s : Str) : splitNL s ≠ [] := by
  cases s with
  | nil => simp [splitNL]
  | cons c rest =>
    unfold splitNL
    by_cases h : c = '\n'
    · simp [h]
    · simp only [if_neg h]
      cases hs : splitNL rest <;> simp

/-- Rejoining the newline split restores the text, trailing newline
included. -/
theorem joinNL_splitNL (s : Str) : joinNL (splitNL s) = s := by
  induction s with
  | nil => rfl
  | cons c rest ih =>
    unfold splitNL
    by_cases h : c = '\n'
    · subst h
      simp only [if_pos rfl]
      cases hs : splitNL rest with
      | nil => exact absurd hs (splitNL_ne_nil rest)
      | cons l ls =>
        rw [hs] at ih
        simpa [joinNL] using ih
    · simp only [if_neg h]
      cases hs : splitNL rest with
      | nil => exact absurd hs (splitNL_ne_nil rest)
      | cons l ls =>
        rw [hs] at ih
        cases ls with
        | nil => simpa [joinNL] using congrArg (c :: ·) ih
        | cons l2 ls2 =>
          simp only [joinNL] at ih ⊢
          simpa using congrArg (c :: ·) ih

/-- The rewrite loop with an empty map copies every line. -/
theorem applyLoop_nil_updates (lines : List Str) (i : Nat) :
    applyLoop [] lines i = lines := by
  induction lines generalizing i with
  | nil => rfl
  | cons l rest ih => simp [applyLoop, mapGet, ih]

/-! ## C6 -/

/-- C6: applied with an empty edit map, the rewrite returns the input text
byte for byte, for every input, trailing-newline presence included. -/
theorem C6_empty_edit_map_identity (content : Str) :
    applyUpdatesToLines content [] = content := by
  unfold applyUpdatesToLines
  rw [applyLoop_nil_updates, joinNL_splitNL]

/-! ## C9 -/

/-- C9 counterexample: on the local-path input `./local/action` the
classifier returns kind local with the repo-path field holding the whole
input, not left empty as the claim states. -/
theorem C9_counterexample_local_repo_filled :
    ∃ a, ParseActionReference (gs "./local/action") = Except.ok a ∧
      a.type = gs "local" ∧ ¬(a.repo = []) :=
  ⟨⟨[], gs "./local/action", [], gs "local"⟩, by decide, by decide, by decide⟩

/-- C9 amended: for every input starting with `./` or `../`, classification
returns kind local with owner and ref left empty and the repo-path field
holding the entire input string. -/
theorem C9_local_path_classification (s : Str)
    (h : goStartsWith s (gs "./") = true ∨ goStartsWith s (gs "../") = true) :
    ParseActionReference s = Except.ok ⟨[], s, [], gs "local"⟩ := by
  have hne : s ≠ [] := by
    rcases h with h | h <;> (intro hs; subst hs; simp [goStartsWith, gs, List.isPrefixOf] at h)
  unfold ParseActionReference
  rcases h with h | h <;> simp [hne, h]

/-- Witness for C9's amended theorem at a concrete local path. -/
theorem C9_local_path_classification_witness :
    ParseActionReference (gs "./x") = Except.ok ⟨[], gs "./x", [], gs "local"⟩ :=
  C9_local_path_classification (gs "./x") (Or.inl (by decide))

/-! ## C10 -/

/-- C10 (code bug): evaluating `isNotFoundError` of src/unnamed/part_005.
With a non-nil `*github.ErrorResponse` error and a nil response the function
dereferences the nil response (result `none`, the embedded panic) instead of
returning a boolean; with a non-nil response it is total, and a 404 status
is classified as not-found. -/
theorem C10_isNotFoundError_nil_resp_panics :
    isNotFoundError (some GoError.errorResponse) none = none ∧
    isNotFoundError (some GoError.errorResponse) (some 404) = some true ∧
    isNotFoundError (some GoError.errorResponse) (some 500) = some false ∧
    isNotFoundError (some GoError.errorResponseNil) none = some false ∧
    isNotFoundError (some GoError.otherError) none = some false ∧
    isNotFoundError none none = some false := by
  decide

/-! ## C2 -/

/-- C2: for inputs reaching the GitHub branch of the classifier (nonempty,
not a local path, not a docker reference), splitting at the first `@` and
the pre-`@` part at the first `/` recovers exactly the ref, owner and
repo-path whenever all three are nonempty; absence of `@` is the missing-ref
error; a pre-`@` part without `/` (fewer than two segments) is the
invalid-format error. -/
theorem C2_classify_positional_split (s rp refPart ow rep : Str)
    (hne : s ≠ [])
    (hl1 : goStartsWith s (gs "./") = false)
    (hl2 : goStartsWith s (gs "../") = false)
    (hd : goStartsWith s (gs "docker://") = false) :
    (splitFirst '@' s = (rp, some refPart) →
      splitFirst '/' rp = (ow, some rep) →
      ow ≠ [] → rep ≠ [] → refPart ≠ [] →
      ParseActionReference s = Except.ok ⟨ow, rep, refPart, gs "github"⟩) ∧
    (splitFirst '@' s = (rp, none) →
      ParseActionReference s = Except.error ParseErr.missingRef) ∧
    (splitFirst '@' s = (rp, some refPart) →
      splitFirst '/' rp = (ow, none) →
      ParseActionReference s = Except.error ParseErr.invalidFormat) := by
  refine ⟨?_, ?_, ?_⟩
  · intro h1 h2 h3 h4 h5
    unfold ParseActionReference
    simp [hne, hl1, hl2, hd, h1, h2, h3, h4, h5]
  · intro h1
    unfold ParseActionReference
    simp [hne, hl1, hl2, hd, h1]
  · intro h1 h2
    unfold ParseActionReference
    simp [hne, hl1, hl2, hd, h1, h2]

/-- Witness for C2 at concrete inputs: a valid reference splits into its
three parts, a ref-less input is the missing-ref error, and a single-segment
pre-`@` part is the invalid-format error. -/
theorem C2_classify_positional_split_witness :
    ParseActionReference (gs "actions/checkout@v4") =
      Except.ok ⟨gs "actions", gs "checkout", gs "v4", gs "github"⟩ ∧
    ParseActionReference (gs "actions/checkout") =
      Except.error ParseErr.missingRef ∧
    ParseActionReference (gs "foo@v1") =
      Except.error ParseErr.invalidFormat := by
  refine ⟨?_, ?_, ?_⟩
  · exact (C2_classify_positional_split (gs "actions/checkout@v4")
      (gs "actions/checkout") (gs "v4") (gs "actions") (gs "checkout")
      (by decide) (by decide) (by decide) (by decide)).1
      (by decide) (by decide) (by decide) (by decide) (by decide)
  · exact (C2_classify_positional_split (gs "actions/checkout")
      (gs "actions/checkout") [] [] []
      (by decide) (by decide) (by decide) (by decide)).2.1 (by decide)
  · exact (C2_classify_positional_split (gs "foo@v1")
      (gs "foo") (gs "v1") (gs "foo") []
      (by decide) (by decide) (by decide) (by decide)).2.2
      (by decide) (by decide)

/-- A line whose trimmed form starts with `uses:` cannot also start with
`- uses:`. -/
theorem uses_not_dash (t : Str) (h : goStartsWith t (gs "uses:") = true) :
    goStartsWith t (gs "- uses:") = false := by
  cases t with
  | nil => exact absurd h (by decide)
  | cons c rest =>
    have hc : c = 'u' := by
      simp [goStartsWith, gs, List.isPrefixOf] at h
      exact h.1.symm
    subst hc
    simp [goStartsWith, gs, List.isPrefixOf]

/-! ## C4 -/

/-- C4: an edited line whose trimmed text begins with `- uses:` is rebuilt
as its original indentation, then `- `, then `uses: `, then the replacement;
one that begins with plain `uses:` the same without the dash marker; and the
spec's end-to-end scenario holds: pinning `  - uses: actions/checkout@v4`
against a remote resolving `v4` to `11bd71901bbe5b1630ceea73d27597364c9af683`
rewrites the line to
`  - uses: actions/checkout@11bd71901bbe5b1630ceea73d27597364c9af683 #v4`. -/
theorem C4_rewrite_line_shape (line v : Str) :
    (goStartsWith (trimSpace line) (gs "- uses:") = true →
      processEditedLine line v = indentOf line ++ gs "- " ++ gs "uses: " ++ v) ∧
    (goStartsWith (trimSpace line) (gs "uses:") = true →
      processEditedLine line v = indentOf line ++ gs "uses: " ++ v) ∧
    (applyUpdatesToLines (gs "  - uses: actions/checkout@v4")
        (handleUsesValue pinScenarioState false (gs "actions/checkout@v4") 1
          ⟨[], 0⟩).updates =
      gs "  - uses: actions/checkout@11bd71901bbe5b1630ceea73d27597364c9af683 #v4") := by
  refine ⟨?_, ?_, ?_⟩
  · intro h
    unfold processEditedLine
    have e : (gs "- uses: ") = gs "- " ++ gs "uses: " := rfl
    simp [h, e, List.append_assoc]
  · intro h
    have hd := uses_not_dash _ h
    unfold processEditedLine
    simp [h, hd]
  · decide

/-- Witness for C4 at a concrete dashed line and a concrete plain line. -/
theorem C4_rewrite_line_shape_witness :
    processEditedLine (gs "  - uses: a/b@v1") (gs "xyz") =
      indentOf (gs "  - uses: a/b@v1") ++ gs "- " ++ gs "uses: " ++ gs "xyz" ∧
    processEditedLine (gs "\tuses: a/b@v1") (gs "xyz") =
      indentOf (gs "\tuses: a/b@v1") ++ gs "uses: " ++ gs "xyz" :=
  ⟨(C4_rewrite_line_shape (gs "  - uses: a/b@v1") (gs "xyz")).1 (by decide),
   (C4_rewrite_line_shape (gs "\tuses: a/b@v1") (gs "xyz")).2.1 (by decide)⟩

/-! ## C5 -/

/-- The i-th output line of the rewrite loop, as a function of the i-th
input line and the edit map entry at its 1-based line number. -/
theorem applyLoop_get (updates : List (Nat × Str)) (lines : List Str) :
    ∀ (start i : Nat), (applyLoop updates lines start).get? i =
      (lines.get? i).map (fun line =>
        match mapGet updates (start + i + 1) with
        | some v => processEditedLine line v
        | none => line) := by
  induction lines with
  | nil => intro start i; simp [applyLoop]
  | cons l rest ih =>
    intro start i
    cases i with
    | zero => simp [applyLoop]
    | succ j =>
      have e : start + 1 + j + 1 = start + (j + 1) + 1 := by omega
      simp only [applyLoop, List.get?_cons_succ]
      rw [ih (start + 1) j]
      simp only [e]

/-- C5: a line number carrying a pending edit whose live line text does not
begin (after trimming) with `uses:` or `- uses:` is emitted unchanged — both
as the per-line fact and through the whole rewrite loop — and the count the
pipeline reports is the walk's detection counter, independent of the text
the edits were applied to. -/
theorem C5_drift_guard :
    (∀ line v, goStartsWith (trimSpace line) (gs "uses:") = false →
        goStartsWith (trimSpace line) (gs "- uses:") = false →
        processEditedLine line v = line) ∧
    (∀ (content : Str) (updates : List (Nat × Str)) (i : Nat) (line v : Str),
        (splitNL content).get? i = some line →
        mapGet updates (i + 1) = some v →
        goStartsWith (trimSpace line) (gs "uses:") = false →
        goStartsWith (trimSpace line) (gs "- uses:") = false →
        (applyLoop updates (splitNL content) 0).get? i = some line) ∧
    (∀ (st : GitHubState) (upd : Bool) (rootContent : List YamlNode) (content : Str),
        (UpdateWorkflowModel st upd rootContent content).1 =
          (match rootContent with
           | [] => WalkState.mk [] 0
           | r0 :: _ => findUpdatesInNodes st upd r0 ⟨[], 0⟩).count) := by
  refine ⟨?_, ?_, ?_⟩
  · intro line v h1 h2
    unfold processEditedLine
    simp [h1, h2]
  · intro content updates i line v hline hupd h1 h2
    rw [applyLoop_get updates (splitNL content) 0 i, hline]
    simp only [Nat.zero_add, Option.map_some, hupd]
    unfold processEditedLine
    simp [h1, h2]
  · intro st upd rootContent content
    unfold UpdateWorkflowModel
    dsimp only
    split <;> rfl

/-- Witness for C5: a comment-only line flagged for edit passes through the
rewrite unchanged, and the model pipeline reports the walk's counter. -/
theorem C5_drift_guard_witness :
    (applyLoop [(1, gs "y")] (splitNL (gs "jobs:\n  steps: x")) 0).get? 0 =
      some (gs "jobs:") ∧
    (UpdateWorkflowModel noRemote false [] (gs "abc")).1 = (WalkState.mk [] 0).count :=
  ⟨C5_drift_guard.2.1 (gs "jobs:\n  steps: x") [(1, gs "y")] 0 (gs "jobs:") (gs "y")
      (by decide) (by decide) (by decide) (by decide),
   C5_drift_guard.2.2 noRemote false [] (gs "abc")⟩

/-! ## C1 -/

/-- C1: when the tag reference for `ref` names an object of type `tag` (an
annotated tag) whose fetched tag object names an object of type `commit`,
tag resolution answers that commit's SHA, and — provided the commit
verification step did not already claim the ref — the full resolver returns
it; in particular the answer is not the intermediate tag object's own SHA
whenever the two differ. -/
theorem C1_annotated_tag_resolves_to_commit (st : GitHubState)
    (owner repo ref tagObjectSHA commitSHA : Str)
    (howner : owner ≠ []) (hrepo : repo ≠ []) (href : ref ≠ [])
    (hverify : verifyCommitSHA st owner repo ref = VerifyOutcome.notCommit ∨
               verifyCommitSHA st owner repo ref = VerifyOutcome.failed)
    (hRef : st.getRef owner repo (gs "refs/tags/" ++ ref) =
            ApiResult.ok (some ⟨gs "tag", tagObjectSHA⟩))
    (hTag : st.getTag owner repo tagObjectSHA =
            ApiResult.ok (some ⟨gs "commit", commitSHA⟩)) :
    resolveTagToSHA st owner repo ref = LookupOutcome.found commitSHA ∧
    ResolveRefToSHA st owner repo ref = Except.ok commitSHA ∧
    (commitSHA ≠ tagObjectSHA →
      resolveTagToSHA st owner repo ref ≠ LookupOutcome.found tagObjectSHA) := by
  have htag : resolveTagToSHA st owner repo ref = LookupOutcome.found commitSHA := by
    have h1 : ¬((gs "tag" : Str) = gs "commit") := by decide
    unfold resolveTagToSHA
    simp only [hRef]
    rw [if_neg h1, if_pos trivial]
    simp only [hTag]
    simp
  refine ⟨htag, ?_, ?_⟩
  · unfold ResolveRefToSHA
    rcases hverify with hv | hv <;> simp [howner, hrepo, href, hv, htag]
  · intro hne habs
    rw [htag] at habs
    exact hne (by injection habs)

/-- Witness for C1 on the concrete annotated-tag remote. -/
theorem C1_annotated_tag_resolves_to_commit_witness :
    ResolveRefToSHA annotatedTagState (gs "o") (gs "r") (gs "v2.0.0") =
      Except.ok (gs "abc1234500000000000000000000000000000abc") ∧
    resolveTagToSHA annotatedTagState (gs "o") (gs "r") (gs "v2.0.0") ≠
      LookupOutcome.found (gs "fffver20tagobject0000000000000000000000f") := by
  have h := C1_annotated_tag_resolves_to_commit annotatedTagState
    (gs "o") (gs "r") (gs "v2.0.0")
    (gs "fffver20tagobject0000000000000000000000f")
    (gs "abc1234500000000000000000000000000000abc")
    (by decide) (by decide) (by decide) (Or.inl (by decide))
    (by decide) (by decide)
  exact ⟨h.2.1, h.2.2 (by decide)⟩

/-! ## C8 -/

/-- C8: in pin mode, a reusable-workflow occurrence with an empty ref first
resolves the repository's default branch `b` through the repository-info
lookup, and that branch name is both the ref the SHA resolution is performed
on and the ref recorded after the `#` in the emitted replacement. -/
theorem C8_empty_ref_uses_default_branch (st : GitHubState)
    (action : WorkflowAction) (lineNum : Nat) (s : WalkState) (b sha : Str)
    (href : action.ref = [])
    (hrepoAPI : (splitFirst '/' action.repo).1 ≠ [])
    (hDB : st.repoGet action.name (splitFirst '/' action.repo).1 =
           ApiResult.ok (some b))
    (hb : b ≠ [])
    (hres : ResolveRefToSHA st action.name (splitFirst '/' action.repo).1 b =
            Except.ok sha)
    (hsha : sha ≠ []) :
    resolveWorkflowRef st action.name (splitFirst '/' action.repo).1 action.ref =
      Except.ok (b, b) ∧
    handleWorkflowReference st false action lineNum s false =
      ⟨mapSet s.updates lineNum
        (action.name ++ gs "/" ++ action.repo ++ gs "@" ++ sha ++ gs " #" ++ b),
       s.count + 1⟩ := by
  have hwr : resolveWorkflowRef st action.name (splitFirst '/' action.repo).1
      action.ref = Except.ok (b, b) := by
    unfold resolveWorkflowRef
    rw [href]
    simp [hDB, hb]
  refine ⟨hwr, ?_⟩
  unfold handleWorkflowReference
  rw [if_neg hrepoAPI]
  simp [hwr, hres, hsha]

/-- Witness for C8: pinning `o/r/.github/workflows/wf.yml` with an empty ref
resolves the default branch `main` and emits it as the trailing comment. -/
theorem C8_empty_ref_uses_default_branch_witness :
    handleWorkflowReference defaultBranchState false
      ⟨gs "o", gs "r/.github/workflows/wf.yml", [], gs "github"⟩ 7 ⟨[], 0⟩ false =
    ⟨[(7, gs "o/r/.github/workflows/wf.yml@77da1f735f5f18ecf049b40ab75503b119175000 #main")], 1⟩ := by
  have h := (C8_empty_ref_uses_default_branch defaultBranchState
    ⟨gs "o", gs "r/.github/workflows/wf.yml", [], gs "github"⟩ 7 ⟨[], 0⟩
    (gs "main") (gs "77da1f735f5f18ecf049b40ab75503b119175000")
    (by decide) (by decide) (by decide) (by decide) (by decide) (by decide)).2
  rw [h]
  decide

/-! ## C3 -/

/-- In pin mode, a reference whose 40-hex check passed is skipped by the
action handler before any lookup or insertion. -/
theorem handleActionReference_pinned_noop (st : GitHubState) (a : WorkflowAction)
    (ln : Nat) (s : WalkState) :
    handleActionReference st false a ln s true = s := by
  unfold handleActionReference
  by_cases hr : (splitFirst '/' a.repo).1 = [] <;> simp [hr]

/-- In pin mode, a reference whose 40-hex check passed is skipped by the
workflow handler before any lookup or insertion. -/
theorem handleWorkflowReference_pinned_noop (st : GitHubState) (a : WorkflowAction)
    (ln : Nat) (s : WalkState) :
    handleWorkflowReference st false a ln s true = s := by
  unfold handleWorkflowReference
  by_cases hr : (splitFirst '/' a.repo).1 = [] <;> simp [hr]

/-- In pin mode an already-pinned (or not retained) occurrence leaves the
walk state untouched. -/
theorem handleUsesValue_pinned_noop (st : GitHubState) (vv : Str) (ln : Nat)
    (s : WalkState) (h : pinnedOccB vv = true) :
    handleUsesValue st false vv ln s = s := by
  unfold handleUsesValue
  cases hm : mapGet s.updates ln with
  | some v => rfl
  | none =>
    cases hp : ParseActionReference vv with
    | error e => rfl
    | ok a =>
      unfold pinnedOccB at h
      rw [hp] at h
      dsimp only at h ⊢
      by_cases hret : a.type = gs "github" ∧ ¬(a.name = []) ∧ ¬(a.repo = [])
      · rw [if_pos hret] at h
        rw [Bool.and_eq_true] at h
        have hcond : ¬(¬(a.type = gs "github") ∨ a.name = [] ∨ a.repo = []) := by
          push_neg
          exact ⟨hret.1, hret.2.1, hret.2.2⟩
        rw [if_neg hcond]
        have hsha : a.ref.length = SHALength ∧ IsHexString a.ref = true :=
          ⟨of_decide_eq_true h.1, h.2⟩
        rw [decide_eq_true hsha]
        split
        · exact handleWorkflowReference_pinned_noop st a ln s
        · exact handleActionReference_pinned_noop st a ln s
      · have hcond : ¬(a.type = gs "github") ∨ a.name = [] ∨ a.repo = [] := by
          tauto
        rw [if_pos hcond]

mutual

/-- Over a node whose every occurrence is pinned or skipped, the pin-mode
walk is the identity on the walk state. -/
theorem findUpdates_pinned_id (st : GitHubState) (n : YamlNode) (s : WalkState)
    (h : ∀ p ∈ usesOccurrences n, pinnedOccB p.1 = true) :
    findUpdatesInNodes st false n s = s := by
  cases n with
  | document content =>
    rw [findUpdatesInNodes]
    exact walkNodeList_pinned_id st content s
      (by simpa only [usesOccurrences] using h)
  | mapping content =>
    rw [findUpdatesInNodes]
    exact walkMappingPairs_pinned_id st content s
      (by simpa only [usesOccurrences] using h)
  | sequence content =>
    rw [findUpdatesInNodes]
    exact walkNodeList_pinned_id st content s
      (by simpa only [usesOccurrences] using h)
  | scalar v l => rw [findUpdatesInNodes]
  | aliasNode => rw [findUpdatesInNodes]

/-- List version of `findUpdates_pinned_id`. -/
theorem walkNodeList_pinned_id (st : GitHubState) (l : List YamlNode) (s : WalkState)
    (h : ∀ p ∈ usesOccurrencesList l, pinnedOccB p.1 = true) :
    walkNodeList st false l s = s := by
  cases l with
  | nil => rw [walkNodeList]
  | cons n rest =>
    rw [walkNodeList]
    rw [findUpdates_pinned_id st n s (fun p hp => h p (by
      simp only [usesOccurrencesList, List.mem_append]
      exact Or.inl hp))]
    exact walkNodeList_pinned_id st rest s (fun p hp => h p (by
      simp only [usesOccurrencesList, List.mem_append]
      exact Or.inr hp))

/-- Mapping-pair version of `findUpdates_pinned_id`. -/
theorem walkMappingPairs_pinned_id (st : GitHubState) (l : List YamlNode) (s : WalkState)
    (h : ∀ p ∈ usesOccurrencesPairs l, pinnedOccB p.1 = true) :
    walkMappingPairs st false l s = s := by
  match l with
  | [] => rw [walkMappingPairs]
  | [x] => rw [walkMappingPairs]
  | keyNode :: valueNode :: rest =>
    rw [walkMappingPairs]
    have hrest : ∀ p ∈ usesOccurrencesPairs rest, pinnedOccB p.1 = true := by
      intro p hp
      refine h p ?_
      rw [usesOccurrencesPairs]
      exact List.mem_append.mpr (Or.inr hp)
    by_cases hc : usesPairCond keyNode valueNode = true
    · rw [if_pos hc]
      rw [handleUsesValue_pinned_noop st _ _ s
        (h (scalarValue valueNode, scalarLine valueNode) (by
          rw [usesOccurrencesPairs, if_pos hc]
          simp))]
      exact walkMappingPairs_pinned_id st rest s hrest
    · rw [if_neg hc]
      rw [findUpdates_pinned_id st valueNode s (fun p hp => h p (by
        rw [usesOccurrencesPairs, if_neg hc]
        exact List.mem_append.mpr (Or.inl hp)))]
      exact walkMappingPairs_pinned_id st rest s hrest

end

/-- C3: over a document in which every retained `uses:` occurrence already
carries a 40-character hexadecimal ref, the pin-mode walk produces the empty
edit map and a zero count — running pin mode on an already-pinned file is a
fixed point. -/
theorem C3_pin_mode_fixed_point (st : GitHubState) (n : YamlNode)
    (h : ∀ p ∈ usesOccurrences n, pinnedOccB p.1 = true) :
    findUpdatesInNodes st false n ⟨[], 0⟩ = ⟨[], 0⟩ :=
  findUpdates_pinned_id st n ⟨[], 0⟩ h

/-- Witness for C3 on a concrete already-pinned document. -/
theorem C3_pin_mode_fixed_point_witness :
    findUpdatesInNodes noRemote false pinnedDoc ⟨[], 0⟩ = ⟨[], 0⟩ :=
  C3_pin_mode_fixed_point noRemote pinnedDoc (by decide)

/-! ## C7 -/

/-- Setting one key of the edit map leaves every other key's lookup
unchanged. -/
theorem mapGet_mapSet_ne (m : List (Nat × Str)) (ln k : Nat) (v : Str)
    (h : k ≠ ln) : mapGet (mapSet m ln v) k = mapGet m k := by
  induction m with
  | nil => simp [mapSet, mapGet, h]
  | cons p rest ih =>
    obtain ⟨k2, v2⟩ := p
    unfold mapSet
    by_cases h2 : ln = k2
    · subst h2
      simp [mapGet, h]
    · rw [if_neg h2]
      unfold mapGet
      by_cases h3 : k = k2 <;> simp [h3, ih]

/-- The action handler either leaves the edit map alone or writes exactly
its own line number. -/
theorem handleActionReference_updates_shape (st : GitHubState) (upd : Bool)
    (a : WorkflowAction) (ln : Nat) (s : WalkState) (b : Bool) :
    (handleActionReference st upd a ln s b).updates = s.updates ∨
    ∃ x, (handleActionReference st upd a ln s b).updates = mapSet s.updates ln x := by
  unfold handleActionReference
  dsimp only
  repeat' split
  all_goals first
    | exact Or.inl rfl
    | exact Or.inr ⟨_, rfl⟩

/-- The workflow handler either leaves the edit map alone or writes exactly
its own line number. -/
theorem handleWorkflowReference_updates_shape (st : GitHubState) (upd : Bool)
    (a : WorkflowAction) (ln : Nat) (s : WalkState) (b : Bool) :
    (handleWorkflowReference st upd a ln s b).updates = s.updates ∨
    ∃ x, (handleWorkflowReference st upd a ln s b).updates = mapSet s.updates ln x := by
  unfold handleWorkflowReference
  dsimp only
  repeat' split
  all_goals first
    | exact Or.inl rfl
    | exact Or.inr ⟨_, rfl⟩

/-- The function `handleUsesValue` either leaves the edit map alone or writes exactly its
own line number. -/
theorem handleUsesValue_updates_shape (st : GitHubState) (upd : Bool)
    (vv : Str) (ln : Nat) (s : WalkState) :
    (handleUsesValue st upd vv ln s).updates = s.updates ∨
    ∃ x, (handleUsesValue st upd vv ln s).updates = mapSet s.updates ln x := by
  unfold handleUsesValue
  repeat' split
  all_goals try exact Or.inl rfl
  all_goals dsimp only
  all_goals repeat' split
  all_goals first
    | exact Or.inl rfl
    | exact handleWorkflowReference_updates_shape st upd _ ln s _
    | exact handleActionReference_updates_shape st upd _ ln s _

/-- A line number that already holds a pending edit makes `handleUsesValue`
a no-op on the whole walk state: the existing entry and the counter stay. -/
theorem handleUsesValue_existing_noop (st : GitHubState) (upd : Bool)
    (vv : Str) (ln : Nat) (s : WalkState) (v : Str)
    (h : mapGet s.updates ln = some v) :
    handleUsesValue st upd vv ln s = s := by
  unfold handleUsesValue
  rw [h]

/-- One `handleUsesValue` step preserves every existing edit-map entry. -/
theorem handleUsesValue_preserves (st : GitHubState) (upd : Bool)
    (vv : Str) (ln : Nat) (s : WalkState) (k : Nat) (v : Str)
    (h : mapGet s.updates k = some v) :
    mapGet (handleUsesValue st upd vv ln s).updates k = some v := by
  by_cases hk : k = ln
  · subst hk
    rw [handleUsesValue_existing_noop st upd vv k s v h]
    exact h
  · rcases handleUsesValue_updates_shape st upd vv ln s with he | ⟨x, he⟩
    · rw [he]; exact h
    · rw [he, mapGet_mapSet_ne s.updates ln k x hk]; exact h

mutual

/-- The walk preserves every edit-map entry present before it. -/
theorem findUpdates_preserves (st : GitHubState) (upd : Bool) (n : YamlNode)
    (s : WalkState) (k : Nat) (v : Str) (h : mapGet s.updates k = some v) :
    mapGet (findUpdatesInNodes st upd n s).updates k = some v := by
  cases n with
  | document content =>
    rw [findUpdatesInNodes]
    exact walkNodeList_preserves st upd content s k v h
  | mapping content =>
    rw [findUpdatesInNodes]
    exact walkMappingPairs_preserves st upd content s k v h
  | sequence content =>
    rw [findUpdatesInNodes]
    exact walkNodeList_preserves st upd content s k v h
  | scalar a b => rw [findUpdatesInNodes]; exact h
  | aliasNode => rw [findUpdatesInNodes]; exact h

/-- List version of `findUpdates_preserves`. -/
theorem walkNodeList_preserves (st : GitHubState) (upd : Bool)
    (l : List YamlNode) (s : WalkState) (k : Nat) (v : Str)
    (h : mapGet s.updates k = some v) :
    mapGet (walkNodeList st upd l s).updates k = some v := by
  cases l with
  | nil => rw [walkNodeList]; exact h
  | cons n rest =>
    rw [walkNodeList]
    exact walkNodeList_preserves st upd rest _ k v
      (findUpdates_preserves st upd n s k v h)

/-- Mapping-pair version of `findUpdates_preserves`. -/
theorem walkMappingPairs_preserves (st : GitHubState) (upd : Bool)
    (l : List YamlNode) (s : WalkState) (k : Nat) (v : Str)
    (h : mapGet s.updates k = some v) :
    mapGet (walkMappingPairs st upd l s).updates k = some v := by
  match l with
  | [] => rw [walkMappingPairs]; exact h
  | [x] => rw [walkMappingPairs]; exact h
  | keyNode :: valueNode :: rest =>
    rw [walkMappingPairs]
    by_cases hc : usesPairCond keyNode valueNode = true
    · rw [if_pos hc]
      exact walkMappingPairs_preserves st upd rest _ k v
        (handleUsesValue_preserves st upd _ _ s k v h)
    · rw [if_neg hc]
      exact walkMappingPairs_preserves st upd rest _ k v
        (findUpdates_preserves st upd valueNode s k v h)

end

/-- C7: the edit map never holds more than one pending edit per line: a
repeated occurrence for a line number that already has an entry is a no-op
on map and counter alike, and every entry present at any point of a walk
survives the rest of the walk with the same value (first writer wins). -/
theorem C7_at_most_one_edit_per_line :
    (∀ (st : GitHubState) (upd : Bool) (vv : Str) (ln : Nat) (s : WalkState) (v : Str),
        mapGet s.updates ln = some v → handleUsesValue st upd vv ln s = s) ∧
    (∀ (st : GitHubState) (upd : Bool) (n : YamlNode) (s : WalkState) (k : Nat) (v : Str),
        mapGet s.updates k = some v →
        mapGet (findUpdatesInNodes st upd n s).updates k = some v) :=
  ⟨fun st upd vv ln s v h => handleUsesValue_existing_noop st upd vv ln s v h,
   fun st upd n s k v h => findUpdates_preserves st upd n s k v h⟩

/-- Witness for C7: a line already flagged keeps its entry and the counter,
and an entry present before a whole walk survives it. -/
theorem C7_at_most_one_edit_per_line_witness :
    handleUsesValue noRemote false (gs "actions/checkout@v4") 1
      ⟨[(1, gs "existing")], 5⟩ = ⟨[(1, gs "existing")], 5⟩ ∧
    mapGet (findUpdatesInNodes noRemote false pinnedDoc
      ⟨[(9, gs "kept")], 2⟩).updates 9 = some (gs "kept") :=
  ⟨C7_at_most_one_edit_per_line.1 noRemote false (gs "actions/checkout@v4") 1
      ⟨[(1, gs "existing")], 5⟩ (gs "existing") (by decide),
   C7_at_most_one_edit_per_line.2 noRemote false pinnedDoc
      ⟨[(9, gs "kept")], 2⟩ 9 (gs "kept") (by decide)⟩

end GhActlock
